import Mathlib

/-!
Verification of the branch-reconciliation core of `prmaster` (prmaster.go).

The development shallowly embeds the data model (`commit`, `branch`), the
release-name matcher (`releaseMatcher`), the per-branch decision logic of
`runSync` (lines 121-216), the remote-branch paging loop of `loadBranches`
(lines 249-265) and the PR-attachment step of `loadBranches` (lines 321-343).
Machine I/O (printing, subprocess spawning, the GitHub client) is represented
by explicit result values: emitted notices become an `Event` list, the two
batched git invocations become `Option (List String)` argument vectors, and
the final `git remote prune` becomes a Boolean flag.
-/

/-- Embedding of `commit` (prmaster.go lines 219-222): a SHA string plus the
committer date.  `time.Time` is modelled as an integer timestamp; `t.Before u`
is strict `<`. -/
structure commit where
  sha : String
  commitDate : Int
deriving Repr, DecidableEq

/-- Embedding of the `pr` field of `branch` (prmaster.go lines 235-238): the
embedded `*github.PullRequest` is reduced to the two accessors `runSync` uses
(`GetNumber`, `GetState`), and the embedded `*commit` is the PR head commit
set from the last element of the PR commit list.  In `loadBranches` both
pointers are set together, so the pair is modelled as one optional value;
`b.pr.commit == nil` in the source corresponds to `b.pr = none` here. -/
structure prData where
  number : Nat
  state : String
  commit : commit
deriving Repr, DecidableEq

/-- Embedding of `branch` (prmaster.go lines 231-239). -/
structure branch where
  name : String
  «local» : Option commit
  remote : Option commit
  pr : Option prData
deriving Repr, DecidableEq

/-- The notices printed by the classification loop of `runSync`
(prmaster.go lines 122-159), one constructor per `fmt.Printf` form. -/
inductive Event where
  | skipRelease (name : String)
  | skipCurrent (name : String)
  | skipNoPR (name : String)
  | skipOpenPR (name : String) (number : Nat)
  | deleteRemote (name : String) (number : Nat)
  | skipRemoteNewer (name : String) (number : Nat)
  | skipLocalNewer (name : String) (number : Nat)
deriving Repr, DecidableEq

/-- Matcher position test for the regular expression alternative `master`:
true iff the character list begins with the literal `master`. -/
def masterAt : List Char → Bool
  | 'm' :: 'a' :: 's' :: 't' :: 'e' :: 'r' :: _ => true
  | _ => false

/-- Matcher position test for the regular expression alternative
`release-\d`: true iff the list begins with the literal `release-` followed
by an ASCII digit. -/
def releaseNumAt : List Char → Bool
  | 'r' :: 'e' :: 'l' :: 'e' :: 'a' :: 's' :: 'e' :: '-' :: c :: _ => c.isDigit
  | _ => false

/-- Embedding of `releaseMatcher.MatchString` (prmaster.go line 356): the Go
regular expression `master|release-\d` matches a string iff some position of
the string starts one of the two alternatives, i.e. iff some tail of the
character list satisfies `masterAt` or `releaseNumAt`. -/
def releaseMatchString (s : String) : Bool :=
  s.toList.tails.any (fun t => masterAt t || releaseNumAt t)

/-- Embedding of `(*branch).isRelease` (prmaster.go lines 358-360). -/
def branch.isRelease (b : branch) : Bool :=
  releaseMatchString b.name

/-- The deletion condition shared by the remote and local sides of `runSync`
(prmaster.go lines 142 and 152): the branch commit equals the PR head commit
by SHA, or its committer date is strictly before the PR head commit date. -/
def shouldDelete (c prc : commit) : Bool :=
  c.sha == prc.sha || decide (c.commitDate < prc.commitDate)

/-- Remote-side bucket decision of `runSync` (lines 141-150): append to
`remoteDeletes` iff the remote commit is present and `shouldDelete` holds. -/
def remoteDecision (b : branch) (p : prData) : Bool :=
  match b.remote with
  | none => false
  | some rc => shouldDelete rc p.commit

/-- Remote-side notice of `runSync` (lines 144-149). -/
def remoteEvents (b : branch) (p : prData) : List Event :=
  match b.remote with
  | none => []
  | some rc =>
    if shouldDelete rc p.commit then [Event.deleteRemote b.name p.number]
    else [Event.skipRemoteNewer b.name p.number]

/-- Local-side bucket decision of `runSync` (lines 151-158): append to
`localDeletes` iff the local commit is present and `shouldDelete` holds. -/
def localDecision (b : branch) (p : prData) : Bool :=
  match b.«local» with
  | none => false
  | some lc => shouldDelete lc p.commit

/-- Local-side notice of `runSync` (lines 154-157); a local deletion prints
nothing during classification. -/
def localEvents (b : branch) (p : prData) : List Event :=
  match b.«local» with
  | none => []
  | some lc =>
    if shouldDelete lc p.commit then []
    else [Event.skipLocalNewer b.name p.number]

/-- Outcome of one iteration of the classification loop of `runSync`
(prmaster.go lines 122-159) for a single branch: whether the branch is
appended to `remoteDeletes`, whether it is appended to `localDeletes`, and
the notices printed for it. -/
structure Decision where
  remoteDel : Bool
  localDel : Bool
  events : List Event
deriving Repr, DecidableEq

/-- Embedding of one iteration of the classification loop of `runSync`
(prmaster.go lines 122-159), following the exact guard order of the source:
release name, currently checked-out name, missing PR, open PR, then the
independent remote-side and local-side decisions. -/
def classifyBranch (currentBranch : String) (b : branch) : Decision :=
  if b.isRelease then ⟨false, false, [Event.skipRelease b.name]⟩
  else if b.name == currentBranch then ⟨false, false, [Event.skipCurrent b.name]⟩
  else
    match b.pr with
    | none => ⟨false, false, [Event.skipNoPR b.name]⟩
    | some p =>
      if p.state == ("open") then ⟨false, false, [Event.skipOpenPR b.name p.number]⟩
      else ⟨remoteDecision b p, localDecision b p, remoteEvents b p ++ localEvents b p⟩

/-- Embedding of `branches.filter` (prmaster.go lines 364-372). -/
def branchesFilter (bs : List branch) (fn : branch → Bool) : List branch :=
  match bs with
  | [] => []
  | b :: rest => if fn b then b :: branchesFilter rest fn else branchesFilter rest fn

/-- The `localDeletes` bucket built by the classification loop of `runSync`
(line 121 and line 153): the branches, in encounter order, whose local side
is selected for deletion. -/
def syncLocalDeletes (currentBranch : String) (bs : List branch) : List branch :=
  branchesFilter bs (fun b => (classifyBranch currentBranch b).localDel)

/-- The `remoteDeletes` bucket built by the classification loop of `runSync`
(line 121 and line 143). -/
def syncRemoteDeletes (currentBranch : String) (bs : List branch) : List branch :=
  branchesFilter bs (fun b => (classifyBranch currentBranch b).remoteDel)

/-- Per-record effect of the two deletion batches of `runSync` (lines
161-186): when not in dry-run mode and the corresponding bucket is nonempty,
the `local` (line 165) and `remote` (line 177) fields of the records chosen
for deletion are set to nil.  In the source the buckets hold pointers into
the branch slice; membership of a record in a bucket is decided by the
classification of that record alone, so the mutation is reproduced here by
reclassifying the record. -/
def execDeletes (dryRun : Bool) (currentBranch : String) (anyLocal anyRemote : Bool)
    (b : branch) : branch :=
  let d := classifyBranch currentBranch b
  let b1 := if !dryRun && anyLocal && d.localDel then { b with «local» := none } else b
  if !dryRun && anyRemote && d.remoteDel then { b1 with remote := none } else b1

/-- The branch slice as the report computations of `runSync` (lines 188-208)
see it: after the deletion batches have nulled out the deleted sides. -/
def branchesAfterSync (dryRun : Bool) (currentBranch : String) (bs : List branch) :
    List branch :=
  bs.map (execDeletes dryRun currentBranch
    (!(syncLocalDeletes currentBranch bs).isEmpty)
    (!(syncRemoteDeletes currentBranch bs).isEmpty))

/-- Predicate of the `noPRBranches` report filter of `runSync` (line 189). -/
def noPRPred (b : branch) : Bool :=
  !b.isRelease && b.remote.isSome && b.pr.isNone

/-- Predicate of the `localOnlyBranches` report filter of `runSync`
(line 201). -/
def localOnlyPred (b : branch) : Bool :=
  !b.isRelease && b.«local».isSome && b.remote.isNone

/-- Observable outcome of `runSync` (prmaster.go lines 96-217) over an
already-collected branch slice: the two deletion buckets, the notices, the
argument vectors of the two batched git invocations (`none` when the
invocation does not happen), the post-deletion branch slice, the two report
lists, and whether `git remote prune` runs. -/
structure SyncOutcome where
  localDeletes : List branch
  remoteDeletes : List branch
  events : List Event
  localDeleteCall : Option (List String)
  remoteDeleteCall : Option (List String)
  branchesAfter : List branch
  noPRBranches : List branch
  localOnlyBranches : List branch
  pruneRuns : Bool
deriving Repr, DecidableEq

/-- Embedding of `runSync` (prmaster.go lines 96-217) after branch
collection, as a pure function of the dry-run flag, the currently
checked-out branch (line 116), the personal remote name `c.remote` and the
collected branch slice.  Both subprocess invocations are assumed to
succeed, which is the path on which the reports are printed. -/
def runSyncPure (dryRun : Bool) (currentBranch cRemote : String) (bs : List branch) :
    SyncOutcome :=
  let locals := syncLocalDeletes currentBranch bs
  let remotes := syncRemoteDeletes currentBranch bs
  let after := branchesAfterSync dryRun currentBranch bs
  { localDeletes := locals
    remoteDeletes := remotes
    events := (bs.map (fun b => (classifyBranch currentBranch b).events)).flatten
    localDeleteCall :=
      if !dryRun && !locals.isEmpty then
        some ([("git"), ("branch"), ("-qD")] ++ locals.map branch.name)
      else none
    remoteDeleteCall :=
      if !dryRun && !remotes.isEmpty then
        some ([("git"), ("push"), ("-qd"), cRemote] ++ remotes.map branch.name)
      else none
    branchesAfter := after
    noPRBranches := branchesFilter after noPRPred
    localOnlyBranches := branchesFilter after localOnlyPred
    pruneRuns := !dryRun }

/-- One entry of the GitHub branch listing consumed by `loadBranches`
(prmaster.go lines 251-261): a name and its head commit. -/
structure ghBranch where
  name : String
  commit : commit
deriving Repr, DecidableEq

/-- Embedding of `strings.HasPrefix` on character lists. -/
def hasPre : List Char → List Char → Bool
  | [], _ => true
  | _ :: _, [] => false
  | p :: ps, c :: cs => p == c && hasPre ps cs

/-- Embedding of `strings.HasPrefix s pre` (prmaster.go line 257). -/
def stringHasPre (pre s : String) : Bool :=
  hasPre pre.toList s.toList

/-- Branch record created for one kept remote-listing entry
(prmaster.go lines 258-261): only the `remote` field is populated. -/
def mkRemoteBranch (g : ghBranch) : branch :=
  { name := g.name, «local» := none, remote := some g.commit, pr := none }

/-- Records appended for one page of the remote listing
(prmaster.go lines 256-263): entries whose name passes the branch-name
filter, in listing order. -/
def keptOfPage (pre : String) (l : List ghBranch) : List branch :=
  (l.filter (fun g => stringHasPre pre g.name)).map mkRemoteBranch

/-- Embedding of the remote-branch collection loop of `loadBranches`
(prmaster.go lines 249-265): `for page := 1; page != 0; { ...; page =
res.NextPage }`.  The hosting API is a function from a page number to the
entries of that page and the next page number (`0` meaning no further
page, as `go-github` reports it).  The loop of the source has no bound on
the number of pages it follows; the embedding makes it total with a fuel
argument and returns `none` exactly when the source loop would still be
running after `fuel` iterations. -/
def collectRemoteLoop (api : Nat → List ghBranch × Nat) (pre : String) :
    Nat → Nat → Option (List branch)
  | _, 0 => some []
  | 0, _ + 1 => none
  | fuel + 1, page + 1 =>
    let r := api (page + 1)
    match collectRemoteLoop api pre fuel r.2 with
    | none => none
    | some rest => some (keptOfPage pre r.1 ++ rest)

/-- The remote-branch collection phase of `loadBranches` (lines 249-265),
started at page 1 as in the source. -/
def collectRemote (api : Nat → List ghBranch × Nat) (pre : String) (fuel : Nat) :
    Option (List branch) :=
  collectRemoteLoop api pre fuel 1

/-- One element of the PR list returned by `PullRequests.List` in
`loadBranches` (prmaster.go line 325), reduced to the accessors the source
reads from it. -/
structure apiPR where
  number : Nat
  state : String
deriving Repr, DecidableEq

/-- Embedding of the PR-attachment step of `loadBranches` for one branch
(prmaster.go lines 329-343), given the already-returned PR list and the
fallible `ListCommits` call: with no PRs the field stays unset; otherwise
the first element of the list is taken (line 331), its commit list is
fetched, an empty commit list leaves the field unset without an error
(lines 337-340), and otherwise the PR together with the last commit of the
list (line 342) is attached. -/
def attachPR (prs : List apiPR) (listCommits : Nat → Except String (List commit)) :
    Except String (Option prData) :=
  match prs with
  | [] => Except.ok none
  | pr0 :: _ =>
    match listCommits pr0.number with
    | Except.error e => Except.error e
    | Except.ok commits =>
      match commits.getLast? with
      | none => Except.ok none
      | some c => Except.ok (some { number := pr0.number, state := pr0.state, commit := c })

/-! Field equations of `runSyncPure` and basic lemmas. -/

@[simp]
theorem runSyncPure_localDeletes (d : Bool) (cur r : String) (bs : List branch) :
    (runSyncPure d cur r bs).localDeletes = syncLocalDeletes cur bs := rfl

@[simp]
theorem runSyncPure_remoteDeletes (d : Bool) (cur r : String) (bs : List branch) :
    (runSyncPure d cur r bs).remoteDeletes = syncRemoteDeletes cur bs := rfl

@[simp]
theorem runSyncPure_events (d : Bool) (cur r : String) (bs : List branch) :
    (runSyncPure d cur r bs).events =
      (bs.map (fun b => (classifyBranch cur b).events)).flatten := rfl

@[simp]
theorem runSyncPure_branchesAfter (d : Bool) (cur r : String) (bs : List branch) :
    (runSyncPure d cur r bs).branchesAfter = branchesAfterSync d cur bs := rfl

@[simp]
theorem runSyncPure_noPRBranches (d : Bool) (cur r : String) (bs : List branch) :
    (runSyncPure d cur r bs).noPRBranches =
      branchesFilter (branchesAfterSync d cur bs) noPRPred := rfl

@[simp]
theorem runSyncPure_localOnlyBranches (d : Bool) (cur r : String) (bs : List branch) :
    (runSyncPure d cur r bs).localOnlyBranches =
      branchesFilter (branchesAfterSync d cur bs) localOnlyPred := rfl

@[simp]
theorem runSyncPure_pruneRuns (d : Bool) (cur r : String) (bs : List branch) :
    (runSyncPure d cur r bs).pruneRuns = !d := rfl

theorem branchesFilter_cons (b : branch) (rest : List branch) (p : branch → Bool) :
    branchesFilter (b :: rest) p =
      if p b then b :: branchesFilter rest p else branchesFilter rest p := rfl

theorem mem_branchesFilter {x : branch} {bs : List branch} {p : branch → Bool} :
    x ∈ branchesFilter bs p ↔ x ∈ bs ∧ p x = true := by
  induction bs with
  | nil => simp [branchesFilter]
  | cons b rest ih =>
    rw [branchesFilter_cons]
    by_cases hb : p b = true
    · rw [if_pos hb]
      simp only [List.mem_cons, ih]
      constructor
      · rintro (rfl | ⟨h1, h2⟩)
        · exact ⟨Or.inl rfl, hb⟩
        · exact ⟨Or.inr h1, h2⟩
      · rintro ⟨rfl | h1, h2⟩
        · exact Or.inl rfl
        · exact Or.inr ⟨h1, h2⟩
    · rw [if_neg hb, ih]
      simp only [List.mem_cons]
      constructor
      · rintro ⟨h1, h2⟩
        exact ⟨Or.inr h1, h2⟩
      · rintro ⟨rfl | h1, h2⟩
        · exact absurd h2 hb
        · exact ⟨h1, h2⟩

theorem mem_syncLocalDeletes {x : branch} {cur : String} {bs : List branch} :
    x ∈ syncLocalDeletes cur bs ↔ x ∈ bs ∧ (classifyBranch cur x).localDel = true := by
  simp [syncLocalDeletes, mem_branchesFilter]

theorem mem_syncRemoteDeletes {x : branch} {cur : String} {bs : List branch} :
    x ∈ syncRemoteDeletes cur bs ↔ x ∈ bs ∧ (classifyBranch cur x).remoteDel = true := by
  simp [syncRemoteDeletes, mem_branchesFilter]

/-! Inversion lemmas for `classifyBranch`. -/

theorem classify_release {cur : String} {b : branch} (h : b.isRelease = true) :
    classifyBranch cur b = ⟨false, false, [Event.skipRelease b.name]⟩ := by
  simp [classifyBranch, h]

theorem classify_current {cur : String} {b : branch} (h1 : b.isRelease = false)
    (h2 : (b.name == cur) = true) :
    classifyBranch cur b = ⟨false, false, [Event.skipCurrent b.name]⟩ := by
  simp [classifyBranch, h1, h2]

theorem classify_noPR {cur : String} {b : branch} (h1 : b.isRelease = false)
    (h2 : (b.name == cur) = false) (h3 : b.pr = none) :
    classifyBranch cur b = ⟨false, false, [Event.skipNoPR b.name]⟩ := by
  simp [classifyBranch, h1, h2, h3]

theorem classify_notOpen (cur : String) (b : branch) (p : prData)
    (h1 : b.isRelease = false) (h2 : (b.name == cur) = false) (h3 : b.pr = some p)
    (h4 : (p.state == ("open")) = false) :
    classifyBranch cur b =
      ⟨remoteDecision b p, localDecision b p, remoteEvents b p ++ localEvents b p⟩ := by
  simp [classifyBranch, h1, h2, h3, h4]

theorem localDel_facts {cur : String} {b : branch}
    (h : (classifyBranch cur b).localDel = true) :
    b.isRelease = false ∧ (b.name == cur) = false ∧
      ∃ p, b.pr = some p ∧ (p.state == ("open")) = false ∧ localDecision b p = true := by
  by_cases hrel : b.isRelease = true
  · rw [classify_release hrel] at h
    exact absurd h (by simp)
  · rw [Bool.not_eq_true] at hrel
    by_cases hcur : (b.name == cur) = true
    · rw [classify_current hrel hcur] at h
      exact absurd h (by simp)
    · rw [Bool.not_eq_true] at hcur
      cases hp : b.pr with
      | none =>
        rw [classify_noPR hrel hcur hp] at h
        exact absurd h (by simp)
      | some p =>
        by_cases hs : (p.state == ("open")) = true
        · rw [show classifyBranch cur b = ⟨false, false, [Event.skipOpenPR b.name p.number]⟩
            from by simp [classifyBranch, hrel, hcur, hp, hs]] at h
          exact absurd h (by simp)
        · rw [Bool.not_eq_true] at hs
          rw [classify_notOpen cur b p hrel hcur hp hs] at h
          exact ⟨hrel, hcur, p, rfl, hs, h⟩

theorem remoteDel_facts {cur : String} {b : branch}
    (h : (classifyBranch cur b).remoteDel = true) :
    b.isRelease = false ∧ (b.name == cur) = false ∧
      ∃ p, b.pr = some p ∧ (p.state == ("open")) = false ∧ remoteDecision b p = true := by
  by_cases hrel : b.isRelease = true
  · rw [classify_release hrel] at h
    exact absurd h (by simp)
  · rw [Bool.not_eq_true] at hrel
    by_cases hcur : (b.name == cur) = true
    · rw [classify_current hrel hcur] at h
      exact absurd h (by simp)
    · rw [Bool.not_eq_true] at hcur
      cases hp : b.pr with
      | none =>
        rw [classify_noPR hrel hcur hp] at h
        exact absurd h (by simp)
      | some p =>
        by_cases hs : (p.state == ("open")) = true
        · rw [show classifyBranch cur b = ⟨false, false, [Event.skipOpenPR b.name p.number]⟩
            from by simp [classifyBranch, hrel, hcur, hp, hs]] at h
          exact absurd h (by simp)
        · rw [Bool.not_eq_true] at hs
          rw [classify_notOpen cur b p hrel hcur hp hs] at h
          exact ⟨hrel, hcur, p, rfl, hs, h⟩

theorem pr_isSome_of_localDel {cur : String} {b : branch}
    (h : (classifyBranch cur b).localDel = true) : b.pr.isSome = true := by
  obtain ⟨-, -, p, hp, -, -⟩ := localDel_facts h
  simp [hp]

theorem pr_isSome_of_remoteDel {cur : String} {b : branch}
    (h : (classifyBranch cur b).remoteDel = true) : b.pr.isSome = true := by
  obtain ⟨-, -, p, hp, -, -⟩ := remoteDel_facts h
  simp [hp]

theorem del_false_of_pr_none (cur : String) {b : branch} (h : b.pr = none) :
    (classifyBranch cur b).localDel = false ∧ (classifyBranch cur b).remoteDel = false := by
  constructor
  · by_contra hc
    rw [Bool.not_eq_false] at hc
    have := pr_isSome_of_localDel hc
    simp [h] at this
  · by_contra hc
    rw [Bool.not_eq_false] at hc
    have := pr_isSome_of_remoteDel hc
    simp [h] at this

/-! Structural lemmas about `execDeletes` and the report predicates. -/

theorem execDeletes_name (d : Bool) (cur : String) (aL aR : Bool) (b : branch) :
    (execDeletes d cur aL aR b).name = b.name := by
  unfold execDeletes
  dsimp only
  split <;> split <;> rfl

theorem execDeletes_pr (d : Bool) (cur : String) (aL aR : Bool) (b : branch) :
    (execDeletes d cur aL aR b).pr = b.pr := by
  unfold execDeletes
  dsimp only
  split <;> split <;> rfl

theorem execDeletes_isRelease (d : Bool) (cur : String) (aL aR : Bool) (b : branch) :
    (execDeletes d cur aL aR b).isRelease = b.isRelease := by
  rw [branch.isRelease, branch.isRelease, execDeletes_name]

theorem execDeletes_dryRun (cur : String) (aL aR : Bool) (b : branch) :
    execDeletes true cur aL aR b = b := by
  simp [execDeletes]

theorem execDeletes_id_of_no_del {cur : String} {b : branch}
    (h1 : (classifyBranch cur b).localDel = false)
    (h2 : (classifyBranch cur b).remoteDel = false) (d : Bool) (aL aR : Bool) :
    execDeletes d cur aL aR b = b := by
  simp [execDeletes, h1, h2]

theorem execDeletes_remote_of_not_remoteDel {cur : String} {b : branch}
    (h : (classifyBranch cur b).remoteDel = false) (d : Bool) (aL aR : Bool) :
    (execDeletes d cur aL aR b).remote = b.remote := by
  simp only [execDeletes, h, Bool.and_false, Bool.false_eq_true, if_false]
  split <;> rfl

theorem noPRPred_execDeletes (d : Bool) (cur : String) (aL aR : Bool) (b : branch) :
    noPRPred (execDeletes d cur aL aR b) = noPRPred b := by
  by_cases hrd : (classifyBranch cur b).remoteDel = true
  · obtain ⟨p, hp⟩ := Option.isSome_iff_exists.mp (pr_isSome_of_remoteDel hrd)
    simp [noPRPred, execDeletes_isRelease, execDeletes_pr, hp]
  · rw [Bool.not_eq_true] at hrd
    simp [noPRPred, execDeletes_isRelease, execDeletes_pr,
      execDeletes_remote_of_not_remoteDel hrd]

theorem pr_none_of_noPRPred {b : branch} (h : noPRPred b = true) : b.pr = none := by
  have : b.pr.isNone = true := by
    simp only [noPRPred, Bool.and_eq_true] at h
    exact h.2
  simpa [Option.isNone_iff_eq_none] using this

theorem branchesFilter_noPR_map_exec (d : Bool) (cur : String) (aL aR : Bool)
    (bs : List branch) :
    branchesFilter (bs.map (execDeletes d cur aL aR)) noPRPred =
      branchesFilter bs noPRPred := by
  induction bs with
  | nil => rfl
  | cons b rest ih =>
    rw [List.map_cons, branchesFilter_cons, branchesFilter_cons, noPRPred_execDeletes, ih]
    by_cases hb : noPRPred b = true
    · rw [if_pos hb, if_pos hb]
      have hnone := pr_none_of_noPRPred hb
      rw [execDeletes_id_of_no_del (del_false_of_pr_none cur hnone).1
        (del_false_of_pr_none cur hnone).2]
    · rw [if_neg hb, if_neg hb]

theorem isEmpty_false_of_mem {x : branch} {l : List branch} (h : x ∈ l) :
    l.isEmpty = false := by
  cases l with
  | nil => cases h
  | cons a t => rfl

/-! Lemmas about the release-name matcher. -/

theorem string_toList_append (s t : String) : (s ++ t).toList = s.toList ++ t.toList :=
  String.data_append s t

theorem tails_any_of_self (p : List Char → Bool) (l : List Char) (h : p l = true) :
    l.tails.any p = true := by
  cases l with
  | nil => simpa using h
  | cons a t => rw [List.tails_cons, List.any_cons, h, Bool.true_or]

theorem tails_any_append (p : List Char → Bool) (l₁ l₂ : List Char)
    (h : l₂.tails.any p = true) : (l₁ ++ l₂).tails.any p = true := by
  induction l₁ with
  | nil => simpa using h
  | cons a l ih => rw [List.cons_append, List.tails_cons, List.any_cons, ih, Bool.or_true]

theorem releaseMatchString_master (s₁ s₂ : String) :
    releaseMatchString (s₁ ++ ("master") ++ s₂) = true := by
  unfold releaseMatchString
  rw [string_toList_append, string_toList_append, List.append_assoc]
  apply tails_any_append
  apply tails_any_of_self
  have h : ("master").toList ++ s₂.toList =
      'm' :: 'a' :: 's' :: 't' :: 'e' :: 'r' :: s₂.toList := rfl
  rw [h]
  rfl

theorem releaseMatchString_releaseNum (s₁ s₂ : String) (c : Char) (hc : c.isDigit = true) :
    releaseMatchString (s₁ ++ ("release-") ++ String.singleton c ++ s₂) = true := by
  unfold releaseMatchString
  rw [string_toList_append, string_toList_append, string_toList_append,
    List.append_assoc, List.append_assoc]
  apply tails_any_append
  apply tails_any_of_self
  have h : ("release-").toList ++ ((String.singleton c).toList ++ s₂.toList) =
      'r' :: 'e' :: 'l' :: 'e' :: 'a' :: 's' :: 'e' :: '-' :: c :: s₂.toList := rfl
  rw [h]
  simp [masterAt, releaseNumAt, hc]

/-! Boolean bridges for the deletion condition. -/

theorem shouldDelete_iff (c prc : commit) :
    shouldDelete c prc = true ↔ (c.sha = prc.sha ∨ c.commitDate < prc.commitDate) := by
  simp [shouldDelete]

theorem remoteDecision_iff (b : branch) (p : prData) :
    remoteDecision b p = true ↔
      ∃ rc, b.remote = some rc ∧
        (rc.sha = p.commit.sha ∨ rc.commitDate < p.commit.commitDate) := by
  cases hb : b.remote with
  | none => simp [remoteDecision, hb]
  | some rc => simp [remoteDecision, hb, shouldDelete_iff]

theorem localDecision_iff (b : branch) (p : prData) :
    localDecision b p = true ↔
      ∃ lc, b.«local» = some lc ∧
        (lc.sha = p.commit.sha ∨ lc.commitDate < p.commit.commitDate) := by
  cases hb : b.«local» with
  | none => simp [localDecision, hb]
  | some lc => simp [localDecision, hb, shouldDelete_iff]

/-! Shared exclusion helper: no output of `runSyncPure` carries a
release-matching name. -/

theorem release_name_not_in_outputs (dryRun : Bool) (cur cRemote : String)
    (bs : List branch) (n : String) (hn : releaseMatchString n = true) :
    (∀ x ∈ (runSyncPure dryRun cur cRemote bs).localDeletes, x.name ≠ n) ∧
    (∀ x ∈ (runSyncPure dryRun cur cRemote bs).remoteDeletes, x.name ≠ n) ∧
    (∀ x ∈ (runSyncPure dryRun cur cRemote bs).noPRBranches, x.name ≠ n) ∧
    (∀ x ∈ (runSyncPure dryRun cur cRemote bs).localOnlyBranches, x.name ≠ n) := by
  have hne : ∀ x : branch, x.isRelease = false → x.name ≠ n := by
    intro x hx he
    rw [branch.isRelease, he, hn] at hx
    cases hx
  refine ⟨?_, ?_, ?_, ?_⟩
  · intro x hx
    rw [runSyncPure_localDeletes, mem_syncLocalDeletes] at hx
    exact hne x (localDel_facts hx.2).1
  · intro x hx
    rw [runSyncPure_remoteDeletes, mem_syncRemoteDeletes] at hx
    exact hne x (remoteDel_facts hx.2).1
  · intro x hx
    rw [runSyncPure_noPRBranches] at hx
    have hpred := (mem_branchesFilter.mp hx).2
    rw [noPRPred, Bool.and_assoc, Bool.and_eq_true, Bool.not_eq_true'] at hpred
    exact hne x hpred.1
  · intro x hx
    rw [runSyncPure_localOnlyBranches] at hx
    have hpred := (mem_branchesFilter.mp hx).2
    rw [localOnlyPred, Bool.and_assoc, Bool.and_eq_true, Bool.not_eq_true'] at hpred
    exact hne x hpred.1

/-- C1: for a branch that reaches the closed-PR stage of the classification
(not a release name, not the checked-out branch, PR attached with state
closed), the remote side is put in the remote-delete bucket iff the remote
commit is present and its SHA equals the PR head commit SHA or its date is
strictly before the PR head commit date; when the remote commit is present
but the condition fails, a commit-is-newer notice is emitted; and the local
side is decided by the identical condition on the local commit,
independently of the remote side. -/
theorem closed_pr_deletion_condition (dryRun : Bool) (cur cRemote : String)
    (bs : List branch) (b : branch) (p : prData) (hb : b ∈ bs)
    (hrel : b.isRelease = false) (hcur : (b.name == cur) = false)
    (hp : b.pr = some p) (hst : p.state = ("closed")) :
    (b ∈ (runSyncPure dryRun cur cRemote bs).remoteDeletes ↔
      ∃ rc, b.remote = some rc ∧
        (rc.sha = p.commit.sha ∨ rc.commitDate < p.commit.commitDate)) ∧
    (∀ rc, b.remote = some rc → rc.sha ≠ p.commit.sha →
      ¬(rc.commitDate < p.commit.commitDate) →
      Event.skipRemoteNewer b.name p.number ∈ (runSyncPure dryRun cur cRemote bs).events) ∧
    (b ∈ (runSyncPure dryRun cur cRemote bs).localDeletes ↔
      ∃ lc, b.«local» = some lc ∧
        (lc.sha = p.commit.sha ∨ lc.commitDate < p.commit.commitDate)) := by
  have hso : (p.state == ("open")) = false := by rw [hst]; decide
  have hcls := classify_notOpen cur b p hrel hcur hp hso
  refine ⟨?_, ?_, ?_⟩
  · rw [runSyncPure_remoteDeletes, mem_syncRemoteDeletes, hcls]
    simp only [hb, true_and]
    exact remoteDecision_iff b p
  · intro rc hrc hne hlt
    have hsd : shouldDelete rc p.commit = false := by
      simp [shouldDelete, hne, hlt]
    have hev : Event.skipRemoteNewer b.name p.number ∈ (classifyBranch cur b).events := by
      rw [hcls]
      show _ ∈ remoteEvents b p ++ localEvents b p
      apply List.mem_append_left
      simp [remoteEvents, hrc, hsd]
    rw [runSyncPure_events]
    rw [List.mem_flatten]
    exact ⟨(classifyBranch cur b).events,
      List.mem_map_of_mem (fun b => (classifyBranch cur b).events) hb, hev⟩
  · rw [runSyncPure_localDeletes, mem_syncLocalDeletes, hcls]
    simp only [hb, true_and]
    exact localDecision_iff b p

/-- Concrete input for the C1 witness. -/
def bC1 : branch :=
  ⟨("feat"), some ⟨("s1"), 1⟩, some ⟨("s0"), 0⟩, some ⟨42, ("closed"), ⟨("s1"), 1⟩⟩⟩

/-- Witness for C1 at a concrete branch whose local commit matches the PR
head SHA and whose remote commit is strictly older. -/
theorem closed_pr_deletion_condition_witness :
    bC1 ∈ (runSyncPure false ("dev") ("origin") [bC1]).remoteDeletes ∧
    bC1 ∈ (runSyncPure false ("dev") ("origin") [bC1]).localDeletes := by
  have h := closed_pr_deletion_condition false ("dev") ("origin") [bC1] bC1
    ⟨42, ("closed"), ⟨("s1"), 1⟩⟩ (by decide) (by decide) (by decide) rfl rfl
  exact ⟨h.1.mpr ⟨⟨("s0"), 0⟩, rfl, Or.inr (by decide)⟩,
    h.2.2.mpr ⟨⟨("s1"), 1⟩, rfl, Or.inl rfl⟩⟩

/-- C2: a branch name matching the release predicate never appears in either
deletion bucket nor in either report list, regardless of PR state, local
commit or remote commit. -/
theorem release_branch_excluded (dryRun : Bool) (cur cRemote : String)
    (bs : List branch) (n : String) (hn : releaseMatchString n = true) :
    (∀ x ∈ (runSyncPure dryRun cur cRemote bs).localDeletes, x.name ≠ n) ∧
    (∀ x ∈ (runSyncPure dryRun cur cRemote bs).remoteDeletes, x.name ≠ n) ∧
    (∀ x ∈ (runSyncPure dryRun cur cRemote bs).noPRBranches, x.name ≠ n) ∧
    (∀ x ∈ (runSyncPure dryRun cur cRemote bs).localOnlyBranches, x.name ≠ n) :=
  release_name_not_in_outputs dryRun cur cRemote bs n hn

/-- Concrete deletable branch used by the C2 witness. -/
def bC2 : branch :=
  ⟨("feat"), some ⟨("s1"), 1⟩, none, some ⟨5, ("closed"), ⟨("s1"), 1⟩⟩⟩

/-- Witness for C2: applied to a concrete run whose local-delete bucket is
inhabited, the exclusion theorem shows the bucket member is not named
`master`. -/
theorem release_branch_excluded_witness : bC2.name ≠ ("master") :=
  (release_branch_excluded false ("dev") ("origin") [bC2] ("master") (by decide)).1
    bC2 (by decide)

/-- Concrete record for the C3 counterexample: a branch named like the
currently checked-out branch, with a remote commit and no PR. -/
def bCur : branch := ⟨("cur"), none, some ⟨("r"), 1⟩, none⟩

/-- C3 counterexample: the currently checked-out branch is indeed in neither
deletion bucket, but it is NOT excluded from the report lists: with a remote
commit and no PR it appears in the remote-branches-without-open-PRs report,
refuting the exclusion part of the claim. -/
theorem current_branch_in_report_counterexample :
    bCur ∈ (runSyncPure false ("cur") ("origin") [bCur]).noPRBranches ∧
    (runSyncPure false ("cur") ("origin") [bCur]).localDeletes = [] ∧
    (runSyncPure false ("cur") ("origin") [bCur]).remoteDeletes = [] := by decide

/-- C3 (amended): the currently checked-out branch name is never present in
either deletion bucket, but it is not excluded from the report lists: a
checked-out non-release branch with a remote commit and no PR appears in the
no-open-PR report, and one with a local commit and no remote commit appears
in the local-only report. -/
theorem current_branch_not_deleted (dryRun : Bool) (cur cRemote : String)
    (bs : List branch) :
    (∀ x ∈ (runSyncPure dryRun cur cRemote bs).localDeletes, x.name ≠ cur) ∧
    (∀ x ∈ (runSyncPure dryRun cur cRemote bs).remoteDeletes, x.name ≠ cur) ∧
    (∀ b ∈ bs, b.name = cur → b.isRelease = false → b.remote.isSome = true →
      b.pr = none → b ∈ (runSyncPure dryRun cur cRemote bs).noPRBranches) ∧
    (∀ b ∈ bs, b.name = cur → b.isRelease = false → b.«local».isSome = true →
      b.remote = none → b ∈ (runSyncPure dryRun cur cRemote bs).localOnlyBranches) := by
  have hdec : ∀ b : branch, b.name = cur →
      (classifyBranch cur b).localDel = false ∧ (classifyBranch cur b).remoteDel = false := by
    intro b hname
    constructor
    · by_contra hc
      rw [Bool.not_eq_false] at hc
      have := (localDel_facts hc).2.1
      rw [hname] at this
      simp at this
    · by_contra hc
      rw [Bool.not_eq_false] at hc
      have := (remoteDel_facts hc).2.1
      rw [hname] at this
      simp at this
  refine ⟨?_, ?_, ?_, ?_⟩
  · intro x hx he
    rw [runSyncPure_localDeletes, mem_syncLocalDeletes] at hx
    have := (hdec x he).1
    rw [hx.2] at this
    cases this
  · intro x hx he
    rw [runSyncPure_remoteDeletes, mem_syncRemoteDeletes] at hx
    have := (hdec x he).2
    rw [hx.2] at this
    cases this
  · intro b hb hname hrel hrem hpr
    rw [runSyncPure_noPRBranches]
    apply mem_branchesFilter.mpr
    have hid := execDeletes_id_of_no_del (hdec b hname).1 (hdec b hname).2 dryRun
      (!(syncLocalDeletes cur bs).isEmpty) (!(syncRemoteDeletes cur bs).isEmpty)
    constructor
    · rw [branchesAfterSync]
      have := List.mem_map_of_mem (execDeletes dryRun cur
        (!(syncLocalDeletes cur bs).isEmpty) (!(syncRemoteDeletes cur bs).isEmpty)) hb
      rwa [hid] at this
    · simp [noPRPred, hrel, hrem, hpr]
  · intro b hb hname hrel hloc hrem
    rw [runSyncPure_localOnlyBranches]
    apply mem_branchesFilter.mpr
    have hid := execDeletes_id_of_no_del (hdec b hname).1 (hdec b hname).2 dryRun
      (!(syncLocalDeletes cur bs).isEmpty) (!(syncRemoteDeletes cur bs).isEmpty)
    constructor
    · rw [branchesAfterSync]
      have := List.mem_map_of_mem (execDeletes dryRun cur
        (!(syncLocalDeletes cur bs).isEmpty) (!(syncRemoteDeletes cur bs).isEmpty)) hb
      rwa [hid] at this
    · simp [localOnlyPred, hrel, hloc, hrem]

/-- Witness for the amended C3 at the concrete checked-out branch record. -/
theorem current_branch_not_deleted_witness :
    bCur ∈ (runSyncPure true ("cur") ("origin") [bCur]).noPRBranches :=
  (current_branch_not_deleted true ("cur") ("origin") [bCur]).2.2.1 bCur
    (by decide) rfl (by decide) rfl rfl

/-- C6: a branch record with no PR attached is assigned to neither deletion
bucket, and when its remote commit is present and it is not a release branch
it appears in the remote-branches-without-open-PRs report. -/
theorem no_pr_branch_skipped_and_reported (dryRun : Bool) (cur cRemote : String)
    (bs : List branch) (b : branch) (hb : b ∈ bs) (hpr : b.pr = none) :
    b ∉ (runSyncPure dryRun cur cRemote bs).localDeletes ∧
    b ∉ (runSyncPure dryRun cur cRemote bs).remoteDeletes ∧
    (b.remote.isSome = true → b.isRelease = false →
      b ∈ (runSyncPure dryRun cur cRemote bs).noPRBranches) := by
  refine ⟨?_, ?_, ?_⟩
  · intro hx
    rw [runSyncPure_localDeletes, mem_syncLocalDeletes] at hx
    rw [(del_false_of_pr_none cur hpr).1] at hx
    cases hx.2
  · intro hx
    rw [runSyncPure_remoteDeletes, mem_syncRemoteDeletes] at hx
    rw [(del_false_of_pr_none cur hpr).2] at hx
    cases hx.2
  · intro hrem hrel
    rw [runSyncPure_noPRBranches]
    apply mem_branchesFilter.mpr
    have hid := execDeletes_id_of_no_del (del_false_of_pr_none cur hpr).1
      (del_false_of_pr_none cur hpr).2 dryRun
      (!(syncLocalDeletes cur bs).isEmpty) (!(syncRemoteDeletes cur bs).isEmpty)
    constructor
    · rw [branchesAfterSync]
      have := List.mem_map_of_mem (execDeletes dryRun cur
        (!(syncLocalDeletes cur bs).isEmpty) (!(syncRemoteDeletes cur bs).isEmpty)) hb
      rwa [hid] at this
    · simp [noPRPred, hrel, hrem, hpr]

/-- Concrete input for the C6 witness. -/
def bC6 : branch := ⟨("srf"), none, some ⟨("r"), 0⟩, none⟩

/-- Witness for C6 at a concrete remote-only branch with no PR. -/
theorem no_pr_branch_skipped_and_reported_witness :
    bC6 ∉ (runSyncPure false ("dev") ("origin") [bC6]).localDeletes ∧
    bC6 ∉ (runSyncPure false ("dev") ("origin") [bC6]).remoteDeletes ∧
    bC6 ∈ (runSyncPure false ("dev") ("origin") [bC6]).noPRBranches := by
  have h := no_pr_branch_skipped_and_reported false ("dev") ("origin") [bC6] bC6
    (by decide) rfl
  exact ⟨h.1, h.2.1, h.2.2 rfl (by decide)⟩

/-- C10: a branch whose attached PR has a state that is neither `open` nor
`closed` is classified exactly as if the state were `closed`: the whole
per-branch decision (both bucket flags and the notices) coincides with the
closed-state decision, and the remote side is eligible for deletion under
the SHA-or-older condition rather than being skipped. -/
theorem unknown_pr_state_treated_as_closed (cur : String) (b : branch) (p : prData)
    (hrel : b.isRelease = false) (hcur : (b.name == cur) = false)
    (hp : b.pr = some p) (hopen : p.state ≠ ("open")) (_hclosed : p.state ≠ ("closed")) :
    classifyBranch cur b =
      classifyBranch cur { b with pr := some { p with state := ("closed") } } ∧
    ((classifyBranch cur b).remoteDel = true ↔
      ∃ rc, b.remote = some rc ∧
        (rc.sha = p.commit.sha ∨ rc.commitDate < p.commit.commitDate)) := by
  have hso : (p.state == ("open")) = false := by
    rw [beq_eq_false_iff_ne]
    exact hopen
  have hcls := classify_notOpen cur b p hrel hcur hp hso
  have hcls2 := classify_notOpen cur { b with pr := some { p with state := ("closed") } }
    { p with state := ("closed") } hrel hcur rfl rfl
  constructor
  · rw [hcls, hcls2]
    rfl
  · rw [hcls]
    exact remoteDecision_iff b p

/-- Concrete input for the C10 witness: a PR whose state string is
`merged`. -/
def bC10 : branch := ⟨("feat2"), none, some ⟨("s"), 0⟩, some ⟨9, ("merged"), ⟨("s"), 0⟩⟩⟩

/-- Witness for C10 at the concrete branch with PR state `merged`. -/
theorem unknown_pr_state_treated_as_closed_witness :
    classifyBranch ("dev") bC10 =
      classifyBranch ("dev")
        { bC10 with pr := some { number := 9, state := ("closed"), commit := ⟨("s"), 0⟩ } } :=
  (unknown_pr_state_treated_as_closed ("dev") bC10 ⟨9, ("merged"), ⟨("s"), 0⟩⟩
    (by decide) (by decide) rfl (by decide) (by decide)).1

/-- Concrete record for the C4 counterexample: a local-only branch with a
closed PR whose head commit SHA matches the local commit. -/
def bC4 : branch := ⟨("x"), some ⟨("s"), 5⟩, none, some ⟨1, ("closed"), ⟨("s"), 5⟩⟩⟩

/-- C4 counterexample: over the same collected branch set, dry-run mode and
apply mode produce different local-branches-absent-from-remote reports,
because apply mode nulls the deleted local field before the report is
computed; this refutes the claim that the two modes compute the same two
report lists. -/
theorem dry_run_report_differs_counterexample :
    (runSyncPure true ("cur") ("origin") [bC4]).localOnlyBranches = [bC4] ∧
    (runSyncPure false ("cur") ("origin") [bC4]).localOnlyBranches = [] := by decide

/-- C4 (amended): dry-run mode computes the same local-delete and
remote-delete buckets, the same notices and the same
remote-branches-without-open-PRs report as apply mode over the same
collected branch set, and performs no delete call and no prune; the
local-branches-absent-from-remote report, however, may differ, because
apply mode nulls the deleted fields before computing it. -/
theorem dry_run_same_classification_no_calls (cur cRemote : String) (bs : List branch) :
    (runSyncPure true cur cRemote bs).localDeletes =
      (runSyncPure false cur cRemote bs).localDeletes ∧
    (runSyncPure true cur cRemote bs).remoteDeletes =
      (runSyncPure false cur cRemote bs).remoteDeletes ∧
    (runSyncPure true cur cRemote bs).events = (runSyncPure false cur cRemote bs).events ∧
    (runSyncPure true cur cRemote bs).noPRBranches =
      (runSyncPure false cur cRemote bs).noPRBranches ∧
    (runSyncPure true cur cRemote bs).localDeleteCall = none ∧
    (runSyncPure true cur cRemote bs).remoteDeleteCall = none ∧
    (runSyncPure true cur cRemote bs).pruneRuns = false := by
  refine ⟨rfl, rfl, rfl, ?_, rfl, rfl, rfl⟩
  rw [runSyncPure_noPRBranches, runSyncPure_noPRBranches, branchesAfterSync,
    branchesAfterSync, branchesFilter_noPR_map_exec, branchesFilter_noPR_map_exec]

/-- C5: in apply mode, for a branch reaching the closed-PR stage with both
commits present and both sides eligible for deletion, the record's local and
remote fields are nulled by the deletion batches, and consequently the
post-run local-branches-absent-from-remote report does not contain the
record. -/
theorem apply_mode_nulls_before_reports (cur cRemote : String) (bs : List branch)
    (b : branch) (p : prData) (lc rc : commit) (hb : b ∈ bs)
    (hrel : b.isRelease = false) (hcur : (b.name == cur) = false)
    (hl : b.«local» = some lc) (hr : b.remote = some rc) (hp : b.pr = some p)
    (hst : p.state = ("closed"))
    (hld : shouldDelete lc p.commit = true) (hrd : shouldDelete rc p.commit = true) :
    (execDeletes false cur (!(syncLocalDeletes cur bs).isEmpty)
        (!(syncRemoteDeletes cur bs).isEmpty) b).«local» = none ∧
    (execDeletes false cur (!(syncLocalDeletes cur bs).isEmpty)
        (!(syncRemoteDeletes cur bs).isEmpty) b).remote = none ∧
    execDeletes false cur (!(syncLocalDeletes cur bs).isEmpty)
        (!(syncRemoteDeletes cur bs).isEmpty) b ∉
      (runSyncPure false cur cRemote bs).localOnlyBranches := by
  have hso : (p.state == ("open")) = false := by rw [hst]; rfl
  have hcls := classify_notOpen cur b p hrel hcur hp hso
  have hldel : (classifyBranch cur b).localDel = true := by
    rw [hcls]
    show localDecision b p = true
    simp [localDecision, hl, hld]
  have hrdel : (classifyBranch cur b).remoteDel = true := by
    rw [hcls]
    show remoteDecision b p = true
    simp [remoteDecision, hr, hrd]
  have hLne : (syncLocalDeletes cur bs).isEmpty = false :=
    isEmpty_false_of_mem (mem_syncLocalDeletes.mpr ⟨hb, hldel⟩)
  have hRne : (syncRemoteDeletes cur bs).isEmpty = false :=
    isEmpty_false_of_mem (mem_syncRemoteDeletes.mpr ⟨hb, hrdel⟩)
  have hexec : execDeletes false cur (!(syncLocalDeletes cur bs).isEmpty)
      (!(syncRemoteDeletes cur bs).isEmpty) b = { b with «local» := none, remote := none } := by
    rw [hLne, hRne]
    simp [execDeletes, hldel, hrdel]
  refine ⟨by rw [hexec], by rw [hexec], ?_⟩
  intro hmem
  rw [runSyncPure_localOnlyBranches] at hmem
  have hpred := (mem_branchesFilter.mp hmem).2
  rw [hexec] at hpred
  simp [localOnlyPred] at hpred

/-- Concrete input for the C5 witness: the keys-doc scenario with both sides
eligible. -/
def bC5 : branch :=
  ⟨("keys-doc"), some ⟨("a1"), 0⟩, some ⟨("a1"), 0⟩, some ⟨25032, ("closed"), ⟨("a1"), 0⟩⟩⟩

/-- Witness for C5 at the concrete both-sides-eligible branch. -/
theorem apply_mode_nulls_before_reports_witness :
    (execDeletes false ("dev") (!(syncLocalDeletes ("dev") [bC5]).isEmpty)
        (!(syncRemoteDeletes ("dev") [bC5]).isEmpty) bC5).«local» = none ∧
    (execDeletes false ("dev") (!(syncLocalDeletes ("dev") [bC5]).isEmpty)
        (!(syncRemoteDeletes ("dev") [bC5]).isEmpty) bC5).remote = none ∧
    execDeletes false ("dev") (!(syncLocalDeletes ("dev") [bC5]).isEmpty)
        (!(syncRemoteDeletes ("dev") [bC5]).isEmpty) bC5 ∉
      (runSyncPure false ("dev") ("origin") [bC5]).localOnlyBranches :=
  apply_mode_nulls_before_reports ("dev") ("origin") [bC5] bC5
    ⟨25032, ("closed"), ⟨("a1"), 0⟩⟩ ⟨("a1"), 0⟩ ⟨("a1"), 0⟩ (by decide) (by decide)
    (by decide) rfl rfl rfl rfl (by decide) (by decide)

/-! Stepping equations for the remote-collection loop. -/

theorem collectRemoteLoop_page_zero (api : Nat → List ghBranch × Nat) (pre : String)
    (fuel : Nat) : collectRemoteLoop api pre fuel 0 = some [] := by
  cases fuel <;> rfl

theorem collectRemoteLoop_step (api : Nat → List ghBranch × Nat) (pre : String)
    (fuel page : Nat) :
    collectRemoteLoop api pre (fuel + 1) (page + 1) =
      match collectRemoteLoop api pre fuel (api (page + 1)).2 with
      | none => none
      | some rest => some (keptOfPage pre (api (page + 1)).1 ++ rest) := rfl

/-- C7 (amended): the remote-branch collection loop follows next-page links
and fetches every page; in particular a listing that spans two pages is
collected in full (every entry of both pages, filtered only by the
branch-name filter), so the condition of more entries existing than were
fetched does not arise, and the collection loop emits no warning. -/
theorem collect_remote_fetches_all_pages (api : Nat → List ghBranch × Nat) (pre : String)
    (l₁ l₂ : List ghBranch) (fuel : Nat) (h1 : api 1 = (l₁, 2)) (h2 : api 2 = (l₂, 0))
    (hf : 2 ≤ fuel) :
    collectRemote api pre fuel = some (keptOfPage pre l₁ ++ keptOfPage pre l₂) := by
  obtain ⟨k, rfl⟩ : ∃ k, fuel = k + 1 + 1 := ⟨fuel - 2, by omega⟩
  show collectRemoteLoop api pre (k + 1 + 1) (0 + 1) = _
  rw [collectRemoteLoop_step, show api (0 + 1) = (l₁, 2) from h1]
  show (match collectRemoteLoop api pre (k + 1) (1 + 1) with
    | none => none
    | some rest => some (keptOfPage pre l₁ ++ rest)) = _
  rw [collectRemoteLoop_step, show api (1 + 1) = (l₂, 0) from h2]
  show (match (match collectRemoteLoop api pre k 0 with
      | none => none
      | some rest => some (keptOfPage pre l₂ ++ rest)) with
    | none => none
    | some rest => some (keptOfPage pre l₁ ++ rest)) = _
  rw [collectRemoteLoop_page_zero]
  show some (keptOfPage pre l₁ ++ (keptOfPage pre l₂ ++ [])) = _
  rw [List.append_nil]

/-- Concrete two-page hosting API listing used for C7: page 1 holds two
entries and links to page 2, which holds one entry and ends the listing. -/
def apiC7 (p : Nat) : List ghBranch × Nat :=
  if p == 1 then ([⟨("a"), ⟨("s1"), 1⟩⟩, ⟨("b"), ⟨("s2"), 2⟩⟩], 2)
  else if p == 2 then ([⟨("c"), ⟨("s3"), 3⟩⟩], 0)
  else ([], 0)

/-- C7 counterexample: a remote listing spanning two pages (three entries in
total) is fetched in full by the collection loop, so the claimed situation
of the listing spanning more entries than were fetched because of a
page-count cap does not occur, and no warning is emitted during collection
(the loop produces branch records only). -/
theorem multi_page_listing_fully_fetched :
    collectRemote apiC7 ("") 5 =
      some [mkRemoteBranch ⟨("a"), ⟨("s1"), 1⟩⟩, mkRemoteBranch ⟨("b"), ⟨("s2"), 2⟩⟩,
        mkRemoteBranch ⟨("c"), ⟨("s3"), 3⟩⟩] := by decide

/-- Witness for the amended C7 at the concrete two-page listing. -/
theorem collect_remote_fetches_all_pages_witness :
    collectRemote apiC7 ("") 2 =
      some (keptOfPage ("") [⟨("a"), ⟨("s1"), 1⟩⟩, ⟨("b"), ⟨("s2"), 2⟩⟩] ++
        keptOfPage ("") [⟨("c"), ⟨("s3"), 3⟩⟩]) :=
  collect_remote_fetches_all_pages apiC7 ("")
    [⟨("a"), ⟨("s1"), 1⟩⟩, ⟨("b"), ⟨("s2"), 2⟩⟩] [⟨("c"), ⟨("s3"), 3⟩⟩] 2 rfl rfl
    (by decide)

/-- C8: when the hosting API returns one or more PRs for a branch, the first
element of the returned list is the one attached (with the last commit of
its commit list as PR head commit); and when that PR's commit list is
empty, the lookup succeeds with the pr field left unset. -/
theorem attach_pr_first_wins_and_empty_commits_ok (pr0 : apiPR) (rest : List apiPR)
    (lc : Nat → Except String (List commit)) :
    (∀ (cs : List commit) (c : commit), lc pr0.number = Except.ok cs →
      cs.getLast? = some c →
      attachPR (pr0 :: rest) lc =
        Except.ok (some { number := pr0.number, state := pr0.state, commit := c })) ∧
    (lc pr0.number = Except.ok [] → attachPR (pr0 :: rest) lc = Except.ok none) := by
  constructor
  · intro cs c h1 h2
    simp [attachPR, h1, h2]
  · intro h
    simp [attachPR, h]

/-- Concrete PR list head for the C8 witness. -/
def prC8 : apiPR := ⟨3, ("closed")⟩

/-- Concrete commit-list call for the C8 witness. -/
def lcC8 : Nat → Except String (List commit) :=
  fun _ => Except.ok [⟨("k1"), 1⟩, ⟨("k2"), 2⟩]

/-- Witness for C8: with two candidate PRs the first is attached, carrying
the last commit of its commit list. -/
theorem attach_pr_first_wins_witness :
    attachPR [prC8, ⟨2, ("open")⟩] lcC8 =
      Except.ok (some ⟨prC8.number, prC8.state, ⟨("k2"), 2⟩⟩) :=
  (attach_pr_first_wins_and_empty_commits_ok prC8 [⟨2, ("open")⟩] lcC8).1
    [⟨("k1"), 1⟩, ⟨("k2"), 2⟩] ⟨("k2"), 2⟩ rfl rfl

/-- C9: the release predicate is a substring match, not a whole-name match:
a name containing `master` anywhere, or containing `release-` immediately
followed by a digit anywhere, matches the release predicate; and such a name
is excluded from both deletion buckets and both report lists. -/
theorem release_predicate_substring (s₁ s₂ : String) :
    releaseMatchString (s₁ ++ ("master") ++ s₂) = true ∧
    (∀ c : Char, c.isDigit = true →
      releaseMatchString (s₁ ++ ("release-") ++ String.singleton c ++ s₂) = true) ∧
    (∀ n : String, releaseMatchString n = true → ∀ (dryRun : Bool) (cur cRemote : String)
      (bs : List branch),
      (∀ x ∈ (runSyncPure dryRun cur cRemote bs).localDeletes, x.name ≠ n) ∧
      (∀ x ∈ (runSyncPure dryRun cur cRemote bs).remoteDeletes, x.name ≠ n) ∧
      (∀ x ∈ (runSyncPure dryRun cur cRemote bs).noPRBranches, x.name ≠ n) ∧
      (∀ x ∈ (runSyncPure dryRun cur cRemote bs).localOnlyBranches, x.name ≠ n)) :=
  ⟨releaseMatchString_master s₁ s₂,
   fun c hc => releaseMatchString_releaseNum s₁ s₂ c hc,
   fun n hn dryRun cur cRemote bs => release_name_not_in_outputs dryRun cur cRemote bs n hn⟩

/-- Witness for C9: `fix-master-bug` and `hotrelease-2x` match the release
predicate although neither is exactly `master` nor a whole release name. -/
theorem release_predicate_substring_witness :
    releaseMatchString (("fix-") ++ ("master") ++ ("-bug")) = true ∧
    releaseMatchString (("hot") ++ ("release-") ++ String.singleton '2' ++ ("x")) = true :=
  ⟨(release_predicate_substring ("fix-") ("-bug")).1,
   (release_predicate_substring ("hot") ("x")).2.1 '2' (by decide)⟩
